import Mathlib

/-!
# Verification of the Transformer implementation (`src/transformer.py`)

A shallow embedding of the forward-pass semantics of `transformer.py` over `ℚ`.

Modelling conventions:
* Tensors are curried functions `Fin d₀ → Fin d₁ → ... → ℚ`; axis order follows the source.
* Floating-point arithmetic is idealized as exact rational arithmetic.  The two
  irrational primitives are kept abstract: `ex : ℚ → ℚ` stands for `exp` (as used
  inside `softmax`), and `rsqrt : ℚ → ℚ` stands for `x ↦ (x + ε)^(-1/2)` (as used
  inside `nn.LayerNorm`).  `sqrtHd : ℚ` stands for the scalar `head_dim ** 0.5`.
  The theorems assume nothing about these beyond what the floating-point facts
  give (e.g. positivity of `exp` where needed).
* `softmax` applied to a row whose masked entries were set to `-inf` by
  `masked_fill` is modelled by `maskedSoftmax`: masked entries contribute `exp(-inf) = 0`
  to the numerator and denominator.
* `nn.Dropout` modules are modelled as abstract tensor transformations (one function
  per application site, covering every random draw); a dropout with rate `0`, and any
  dropout in evaluation mode, is the identity.
-/

/-- `nn.Linear(inF, outF)`: weight matrix `w : outF × inF` and bias `b : outF`. -/
structure Lin (outF inF : ℕ) where
  w : Fin outF → Fin inF → ℚ
  b : Fin outF → ℚ

/-- Application of a linear layer to a vector: `y o = Σ e, w o e * v e + b o`. -/
def Lin.app {m n : ℕ} (l : Lin m n) (v : Fin n → ℚ) : Fin m → ℚ :=
  fun o => (∑ e, l.w o e * v e) + l.b o

/-- Applying a linear layer at every position of a rank-3 tensor (as `nn.Linear`
does on the last axis). -/
def linMap {E D L B : ℕ} (l : Lin E D) (t : Fin L → Fin B → Fin D → ℚ) :
    Fin L → Fin B → Fin E → ℚ :=
  fun i b => l.app (t i b)

/-- `ReLU`. -/
def relu (x : ℚ) : ℚ := max x 0

/-- Mean of a vector over the embedding axis (used by `nn.LayerNorm`). -/
def tmean {D : ℕ} (v : Fin D → ℚ) : ℚ := (∑ e, v e) / (D : ℚ)

/-- Biased variance of a vector over the embedding axis (used by `nn.LayerNorm`). -/
def tvar {D : ℕ} (v : Fin D → ℚ) : ℚ := (∑ e, (v e - tmean v) ^ 2) / (D : ℚ)

/-- `nn.LayerNorm(D)` with learned affine parameters `g` (scale) and `c` (shift);
`rsqrt` stands for `x ↦ (x + eps)^(-1/2)`. -/
def layerNorm {D : ℕ} (rsqrt : ℚ → ℚ) (g c : Fin D → ℚ) (v : Fin D → ℚ) :
    Fin D → ℚ :=
  fun e => g e * ((v e - tmean v) * rsqrt (tvar v)) + c e

/-- The feed-forward composite `fc2(relu(fc1(v)))`, shared by the decoder block's
`ffn = Sequential(Linear, ReLU, Linear)` and the encoder's `FeedForward` class. -/
def ffApply {D F : ℕ} (fc1 : Lin F D) (fc2 : Lin D F) (v : Fin D → ℚ) : Fin D → ℚ :=
  fc2.app (fun h => relu (fc1.app v h))

/-- `torch.ones(n, n)`. -/
def ones (n : ℕ) : Fin n → Fin n → ℚ := fun _ _ => 1

/-- `torch.triu(M, diagonal=d)`: keep entries with `j - i ≥ d`, zero the rest. -/
def triu {n : ℕ} (d : ℤ) (M : Fin n → Fin n → ℚ) : Fin n → Fin n → ℚ :=
  fun i j => if d ≤ (j : ℤ) - (i : ℤ) then M i j else 0

/-- `create_mask(seq_len)` from `transformer.py` lines 131-133:
`torch.triu(torch.ones(seq_len, seq_len), diagonal=1).bool()`. -/
def create_mask (seq_len : ℕ) : Fin seq_len → Fin seq_len → Bool :=
  fun i j => decide (triu 1 (ones seq_len) i j ≠ 0)

/-- The flat embedding index of head `h`, in-head coordinate `k` (the
`view(batch, seq, num_heads, head_dim)` reshape sends flat index `h*head_dim + k`
to `(h, k)`). -/
def hk {H hd : ℕ} (h : Fin H) (k : Fin hd) : Fin (H * hd) :=
  ⟨h.val * hd + k.val, by
    have h1 : h.val + 1 ≤ H := h.isLt
    calc h.val * hd + k.val < h.val * hd + hd := by omega
      _ = (h.val + 1) * hd := by ring
      _ ≤ H * hd := Nat.mul_le_mul_right hd h1⟩

/-- The head index of a flat embedding coordinate (inverse of the head-merge
`view(batch, num_heads, seq, head_dim) → (batch, seq, embed)`). -/
def ehead {H hd : ℕ} (e : Fin (H * hd)) : Fin H :=
  ⟨e.val / hd, by
    have hpos : 0 < H * hd := e.pos
    have hhd : 0 < hd := by
      rcases Nat.eq_zero_or_pos hd with h0 | h0
      · rw [h0, Nat.mul_zero] at hpos; exact absurd hpos (lt_irrefl 0)
      · exact h0
    exact (Nat.div_lt_iff_lt_mul hhd).mpr e.isLt⟩

/-- The in-head coordinate of a flat embedding coordinate. -/
def ehd {H hd : ℕ} (e : Fin (H * hd)) : Fin hd :=
  ⟨e.val % hd, by
    have hpos : 0 < H * hd := e.pos
    have hhd : 0 < hd := by
      rcases Nat.eq_zero_or_pos hd with h0 | h0
      · rw [h0, Nat.mul_zero] at hpos; exact absurd hpos (lt_irrefl 0)
      · exact h0
    exact Nat.mod_lt _ hhd⟩

/-- `F.softmax` applied after `masked_fill(mask, -inf)`: a masked entry is
`exp(-inf) = 0`, an unmasked entry is `ex (s j)` normalized by the sum of the
unmasked exponentials. -/
def maskedSoftmax {n : ℕ} (ex : ℚ → ℚ) (m : Fin n → Bool) (s : Fin n → ℚ) :
    Fin n → ℚ :=
  fun j =>
    if m j then 0
    else ex (s j) / ∑ j2 in Finset.univ.filter (fun j2 => m j2 = false), ex (s j2)

/-- Parameters of `CustomMultiheadAttention`: the four `nn.Linear(embed_dim, embed_dim)`
modules `query`, `key`, `value`, `out`. -/
structure AttnParams (D : ℕ) where
  query : Lin D D
  key : Lin D D
  value : Lin D D
  out : Lin D D

/-- The head-split view: `t` of shape `(seq, batch, embed)` viewed as
`(batch, head, seq, head_dim)` (the `transpose(0,1)` then
`view(batch, seq, heads, hd).transpose(1,2)` of the source). -/
def headSlice (H hd : ℕ) {L B : ℕ} (t : Fin L → Fin B → Fin (H * hd) → ℚ) :
    Fin B → Fin H → Fin L → Fin hd → ℚ :=
  fun b h i k => t i b (hk h k)

/-- Scaled dot-product scores `torch.bmm(Q, K.transpose(1,2)) / head_dim ** 0.5`. -/
def attnScores {H hd L B : ℕ} (sqrtHd : ℚ)
    (Qh Kh : Fin B → Fin H → Fin L → Fin hd → ℚ) :
    Fin B → Fin H → Fin L → Fin L → ℚ :=
  fun b h i j => (∑ k, Qh b h i k * Kh b h j k) / sqrtHd

/-- The effective mask: `attn_mask` when supplied, otherwise no masking. -/
abbrev effMask {L : ℕ} (m : Option (Fin L → Fin L → Bool)) : Fin L → Fin L → Bool :=
  m.getD (fun _ _ => false)

/-- The softmax probabilities of `CustomMultiheadAttention.forward` before the
attention dropout (`attn_probs` right after line 52). -/
def rawAttnProbs (H hd : ℕ) {L B : ℕ} (ex : ℚ → ℚ) (sqrtHd : ℚ)
    (p : AttnParams (H * hd)) (query key : Fin L → Fin B → Fin (H * hd) → ℚ)
    (attn_mask : Option (Fin L → Fin L → Bool)) :
    Fin B → Fin H → Fin L → Fin L → ℚ :=
  fun b h i =>
    maskedSoftmax ex (effMask attn_mask i)
      (attnScores sqrtHd (headSlice H hd (linMap p.query query))
        (headSlice H hd (linMap p.key key)) b h i)

/-- `attn_output` through head-merge and the final `out` projection, as a function
of the (post-dropout) probabilities actually multiplied with `V` (lines 55-61, 68). -/
def attnOutputFrom (H hd : ℕ) {L B : ℕ} (p : AttnParams (H * hd))
    (value : Fin L → Fin B → Fin (H * hd) → ℚ)
    (probs : Fin B → Fin H → Fin L → Fin L → ℚ) :
    Fin L → Fin B → Fin (H * hd) → ℚ :=
  linMap p.out (fun i b e =>
    ∑ j, probs b (ehead e) i j * headSlice H hd (linMap p.value value) b (ehead e) j (ehd e))

/-- Mean over heads (`attn_probs.mean(dim=1)`, line 65). -/
def headMean {H L B : ℕ} (probs : Fin B → Fin H → Fin L → Fin L → ℚ) :
    Fin B → Fin L → Fin L → ℚ :=
  fun b i j => (∑ h, probs b h i j) / (H : ℚ)

/-- `CustomMultiheadAttention.forward` (lines 25-70).  `dAttn` is the
`self.attention_dropout` application on the probability tensor (identity when the
dropout rate is `0` or the module is in evaluation mode).  Returns
`(output, attn_map)`. -/
def cmhaForward (H hd : ℕ) {L B : ℕ} (ex : ℚ → ℚ) (sqrtHd : ℚ)
    (p : AttnParams (H * hd))
    (dAttn : (Fin B → Fin H → Fin L → Fin L → ℚ) → Fin B → Fin H → Fin L → Fin L → ℚ)
    (query key value : Fin L → Fin B → Fin (H * hd) → ℚ)
    (attn_mask : Option (Fin L → Fin L → Bool)) :
    (Fin L → Fin B → Fin (H * hd) → ℚ) × (Fin B → Fin L → Fin L → ℚ) :=
  let probsD := dAttn (rawAttnProbs H hd ex sqrtHd p query key attn_mask)
  (attnOutputFrom H hd p value probsD, headMean probsD)

/-- Parameters of `TransformerDecoderBlock` (lines 73-85): the attention module,
the two `nn.LayerNorm(embed_dim)` modules, and the `ffn` pair of linear layers. -/
structure DecBlockParams (H hd F : ℕ) where
  self_attn : AttnParams (H * hd)
  ln1g : Fin (H * hd) → ℚ
  ln1c : Fin (H * hd) → ℚ
  ffn1 : Lin F (H * hd)
  ffn2 : Lin (H * hd) F
  ln2g : Fin (H * hd) → ℚ
  ln2c : Fin (H * hd) → ℚ

/-- `TransformerDecoderBlock.forward` (lines 87-97).  `d1`, `d2` are the two
applications of `self.dropout` (to the attention output and to the feed-forward
output).  The attention module is constructed with `dropout=0` (line 77), so its
internal dropout is the identity. -/
def decBlockForward {H hd F L B : ℕ} (ex rsqrt : ℚ → ℚ) (sqrtHd : ℚ)
    (P : DecBlockParams H hd F)
    (d1 d2 : (Fin L → Fin B → Fin (H * hd) → ℚ) → Fin L → Fin B → Fin (H * hd) → ℚ)
    (x : Fin L → Fin B → Fin (H * hd) → ℚ)
    (mask : Option (Fin L → Fin L → Bool)) :
    (Fin L → Fin B → Fin (H * hd) → ℚ) × (Fin B → Fin L → Fin L → ℚ) :=
  let a := cmhaForward H hd ex sqrtHd P.self_attn id x x x mask
  let x1 : Fin L → Fin B → Fin (H * hd) → ℚ :=
    fun i b => layerNorm rsqrt P.ln1g P.ln1c (fun e => x i b e + d1 a.1 i b e)
  let x2 : Fin L → Fin B → Fin (H * hd) → ℚ :=
    fun i b => layerNorm rsqrt P.ln2g P.ln2c
      (fun e => x1 i b e + d2 (fun i2 b2 => ffApply P.ffn1 P.ffn2 (x1 i2 b2)) i b e)
  (x2, a.2)

/-- Parameters of `TransformerDecoder` (lines 99-109). -/
structure DecoderParams (V maxLen H hd F : ℕ) where
  token_embedding : Fin V → Fin (H * hd) → ℚ
  position_embedding : Fin maxLen → Fin (H * hd) → ℚ
  layers : List (DecBlockParams H hd F)
  fc_out : Lin V (H * hd)

/-- The layer loop of `TransformerDecoder.forward` (lines 120-123), with every
dropout in evaluation mode (identity): threads the sequence tensor through the
blocks and collects each block's attention map in order. -/
def runLayers {H hd F L B : ℕ} (ex rsqrt : ℚ → ℚ) (sqrtHd : ℚ)
    (mask : Option (Fin L → Fin L → Bool)) :
    List (DecBlockParams H hd F) → (Fin L → Fin B → Fin (H * hd) → ℚ) →
    (Fin L → Fin B → Fin (H * hd) → ℚ) × List (Fin B → Fin L → Fin L → ℚ)
  | [], x => (x, [])
  | P :: Ps, x =>
    let r := decBlockForward ex rsqrt sqrtHd P id id x mask
    let rest := runLayers ex rsqrt sqrtHd mask Ps r.1
    (rest.1, r.2 :: rest.2)

/-- The layer loop keeping only the sequence tensor (no attention maps). -/
def runLayersSeq {H hd F L B : ℕ} (ex rsqrt : ℚ → ℚ) (sqrtHd : ℚ)
    (mask : Option (Fin L → Fin L → Bool)) :
    List (DecBlockParams H hd F) → (Fin L → Fin B → Fin (H * hd) → ℚ) →
    Fin L → Fin B → Fin (H * hd) → ℚ
  | [], x => x
  | P :: Ps, x =>
    runLayersSeq ex rsqrt sqrtHd mask Ps (decBlockForward ex rsqrt sqrtHd P id id x mask).1

/-- `TransformerDecoder.forward` (lines 111-127) with dropout disabled
(evaluation mode).  Input `tokens` has shape `[L, B]` (`seq_len, batch_size = x.shape`);
output is `(logits, attn_maps)`.  `hL : L ≤ maxLen` is the bound needed by the
position-embedding lookup (`positions = arange(seq_len)`). -/
def transformerDecoderForward {V maxLen H hd F L B : ℕ} (ex rsqrt : ℚ → ℚ)
    (sqrtHd : ℚ) (P : DecoderParams V maxLen H hd F) (hL : L ≤ maxLen)
    (tokens : Fin L → Fin B → Fin V)
    (mask : Option (Fin L → Fin L → Bool)) :
    (Fin L → Fin B → Fin V → ℚ) × List (Fin B → Fin L → Fin L → ℚ) :=
  let x0 : Fin L → Fin B → Fin (H * hd) → ℚ := fun i b e =>
    P.token_embedding (tokens i b) e + P.position_embedding (Fin.castLE hL i) e
  let r := runLayers ex rsqrt sqrtHd mask P.layers x0
  (fun i b => P.fc_out.app (r.1 i b), r.2)

/-- Parameters of `EncoderLayer` (lines 262-269): two `nn.LayerNorm` modules, the
attention module (constructed with the default `dropout=0.0`), and the
`FeedForward` pair `fc1`, `fc2`. -/
structure EncLayerParams (H hd F : ℕ) where
  norm1g : Fin (H * hd) → ℚ
  norm1c : Fin (H * hd) → ℚ
  norm2g : Fin (H * hd) → ℚ
  norm2c : Fin (H * hd) → ℚ
  attention : AttnParams (H * hd)
  fc1 : Lin F (H * hd)
  fc2 : Lin (H * hd) F

/-- The attention map computed (and then discarded) by `EncoderLayer.forward`
(line 272, `atten_map`).  Note the layer passes its batch-first tensor
`x : [batch, seq, embed]` directly to `CustomMultiheadAttention`, which reads
axis 0 as the attention axis. -/
def encLayerAttnMap {H hd F B L : ℕ} (ex : ℚ → ℚ) (sqrtHd : ℚ)
    (P : EncLayerParams H hd F) (x : Fin B → Fin L → Fin (H * hd) → ℚ)
    (mask : Option (Fin B → Fin B → Bool)) :
    Fin L → Fin B → Fin B → ℚ :=
  (cmhaForward H hd ex sqrtHd P.attention id x x x mask).2

/-- `EncoderLayer.forward` (lines 271-276).  `d1`, `d2` are the two applications
of `self.dropout`; the source applies them OUTSIDE the layer norms:
`x = dropout(norm1(attention + x))`, `out = dropout(norm2(forward + x))`.
Only the updated sequence tensor is returned; `atten_map` is discarded. -/
def encLayerForward {H hd F B L : ℕ} (ex rsqrt : ℚ → ℚ) (sqrtHd : ℚ)
    (P : EncLayerParams H hd F)
    (d1 d2 : (Fin B → Fin L → Fin (H * hd) → ℚ) → Fin B → Fin L → Fin (H * hd) → ℚ)
    (x : Fin B → Fin L → Fin (H * hd) → ℚ)
    (mask : Option (Fin B → Fin B → Bool)) :
    Fin B → Fin L → Fin (H * hd) → ℚ :=
  let a := cmhaForward H hd ex sqrtHd P.attention id x x x mask
  let x1 : Fin B → Fin L → Fin (H * hd) → ℚ :=
    d1 (fun b l => layerNorm rsqrt P.norm1g P.norm1c (fun e => a.1 b l e + x b l e))
  d2 (fun b l => layerNorm rsqrt P.norm2g P.norm2c
    (fun e => ffApply P.fc1 P.fc2 (x1 b l) e + x1 b l e))

/-- Parameters of `Encoder` (lines 278-298). -/
structure EncoderParams (V maxLen H hd F : ℕ) where
  word_embedding : Fin V → Fin (H * hd) → ℚ
  position_embedding : Fin maxLen → Fin (H * hd) → ℚ
  layers : List (EncLayerParams H hd F)

/-- The layer loop of `Encoder.forward` (lines 305-306), dropout in evaluation
mode; each layer returns only the sequence tensor. -/
def encRunLayers {H hd F B L : ℕ} (ex rsqrt : ℚ → ℚ) (sqrtHd : ℚ)
    (mask : Option (Fin B → Fin B → Bool)) :
    List (EncLayerParams H hd F) → (Fin B → Fin L → Fin (H * hd) → ℚ) →
    Fin B → Fin L → Fin (H * hd) → ℚ
  | [], x => x
  | P :: Ps, x =>
    encRunLayers ex rsqrt sqrtHd mask Ps (encLayerForward ex rsqrt sqrtHd P id id x mask)

/-- `Encoder.forward` (lines 300-308) with dropout disabled.  Input `x` has shape
`[B, L]` (`N, seq_length = x.shape`). -/
def encoderForward {V maxLen H hd F B L : ℕ} (ex rsqrt : ℚ → ℚ) (sqrtHd : ℚ)
    (P : EncoderParams V maxLen H hd F) (hL : L ≤ maxLen)
    (x : Fin B → Fin L → Fin V)
    (mask : Option (Fin B → Fin B → Bool)) :
    Fin B → Fin L → Fin (H * hd) → ℚ :=
  let out0 : Fin B → Fin L → Fin (H * hd) → ℚ := fun b l e =>
    P.word_embedding (x b l) e + P.position_embedding (Fin.castLE hL l) e
  encRunLayers ex rsqrt sqrtHd mask P.layers out0

/-- Parameters of `TransformerClassifier` (lines 319-323): the wrapped
`Transformer`/`Encoder` and the classification head `fc : Linear(embed, num_classes)`. -/
structure ClassifierParams (V maxLen H hd F C : ℕ) where
  transformer : EncoderParams V maxLen H hd F
  fc : Lin C (H * hd)

/-- `TransformerClassifier.forward` (lines 325-329) with dropout disabled:
encode, mean-pool over the sequence axis (`enc_out.mean(dim=1)`), project to
class logits. -/
def transformerClassifierForward {V maxLen H hd F C B L : ℕ} (ex rsqrt : ℚ → ℚ)
    (sqrtHd : ℚ) (P : ClassifierParams V maxLen H hd F C) (hL : L ≤ maxLen)
    (x : Fin B → Fin L → Fin V)
    (mask : Option (Fin B → Fin B → Bool)) :
    Fin B → Fin C → ℚ :=
  let enc := encoderForward ex rsqrt sqrtHd P.transformer hL x mask
  fun b => P.fc.app (fun e => (∑ l, enc b l e) / (L : ℚ))

/-- Success of `CustomMultiheadAttention.__init__` (lines 10-23) for given
`embed_dim`, `num_heads`: Python computes `head_dim = embed_dim // num_heads`
(a ZeroDivisionError when `num_heads = 0`) and asserts
`head_dim * num_heads == embed_dim`. -/
def cmhaInitOk (embed_dim num_heads : ℕ) : Bool :=
  num_heads != 0 && (embed_dim / num_heads) * num_heads == embed_dim

/-- Success of `TransformerDecoder.__init__` (lines 100-109).  The constructor
builds two `nn.Embedding`s and an `nn.Linear` (which accept any natural sizes,
zero included), `nn.Dropout(dropout)` (the library accepts `0 ≤ p ≤ 1`), and
`num_layers` copies of `TransformerDecoderBlock`, each of which constructs a
`CustomMultiheadAttention` (divisibility assert) and `nn.Dropout(dropout)`.
There is no validation of positivity of any dimension parameter. -/
def transformerDecoderInitOk (_vocab_size _max_seq_len embed_dim num_heads
    _ff_hidden_dim num_layers : ℕ) (dropout : ℚ) : Bool :=
  decide (0 ≤ dropout) && decide (dropout ≤ 1) &&
    (num_layers == 0 || cmhaInitOk embed_dim num_heads)

/-- Construction-time wiring of `CustomMultiheadAttention`: the rate handed to
`nn.Dropout` for `self.attention_dropout` (line 23). -/
structure CMHACfg where
  embed_dim : ℕ
  num_heads : ℕ
  attention_dropout_rate : ℚ

/-- `CustomMultiheadAttention.__init__` wiring. -/
def mkCMHACfg (embed_dim num_heads : ℕ) (dropout : ℚ) : CMHACfg :=
  ⟨embed_dim, num_heads, dropout⟩

/-- Construction-time wiring of `TransformerDecoderBlock`: the attention module
and the rate of the residual-path `nn.Dropout` (lines 74-85). -/
structure DecBlockCfg where
  self_attn : CMHACfg
  dropout_rate : ℚ

/-- `TransformerDecoderBlock.__init__` (lines 74-85): the attention module is
built with `dropout=0` (line 77); `self.dropout = nn.Dropout(dropout)` uses the
configured rate. -/
def mkDecBlockCfg (embed_dim num_heads _ff_hidden_dim : ℕ) (dropout : ℚ) :
    DecBlockCfg :=
  ⟨mkCMHACfg embed_dim num_heads 0, dropout⟩

/-- Construction-time wiring of `EncoderLayer` (lines 262-269). -/
structure EncLayerCfg where
  attention : CMHACfg
  dropout_rate : ℚ

/-- `EncoderLayer.__init__` (lines 262-269): `self.attention =
CustomMultiheadAttention(embed_size, heads)` uses the DEFAULT attention dropout
`0.0` (line 10); `self.dropout = nn.Dropout(dropout)` uses the configured rate. -/
def mkEncLayerCfg (embed_size heads _forward_expansion : ℕ) (dropout : ℚ) :
    EncLayerCfg :=
  ⟨mkCMHACfg embed_size heads 0, dropout⟩

/-- Construction-time wiring of `TransformerDecoder` (lines 100-109): the per-layer
block configurations and the rate of the embedding `nn.Dropout`. -/
structure DecoderCfg where
  layers : List DecBlockCfg
  dropout_rate : ℚ

/-- `TransformerDecoder.__init__`: every block receives the stack-level rate. -/
def mkDecoderCfg (_vocab_size _max_seq_len embed_dim num_heads ff_hidden_dim
    num_layers : ℕ) (dropout : ℚ) : DecoderCfg :=
  ⟨List.replicate num_layers (mkDecBlockCfg embed_dim num_heads ff_hidden_dim dropout),
    dropout⟩

/-- A function is everywhere positive (the property of `exp` the softmax
normalization relies on). -/
abbrev IsPos (f : ℚ → ℚ) : Prop := ∀ t, 0 < f t

/-- No row of the effective attention mask is fully masked. -/
abbrev NoFullRow {L : ℕ} (m : Option (Fin L → Fin L → Bool)) : Prop :=
  ∀ i, ∃ j, effMask m i j = false

/-- Every row of an attention map sums to `1`. -/
abbrev RowsSumOne {B L : ℕ} (map : Fin B → Fin L → Fin L → ℚ) : Prop :=
  ∀ b i, ∑ j, map b i j = 1

/-- Two token tensors of shape `[L, B]` agree at all positions `≤ i`. -/
abbrev TokensAgreeLe {L B V : ℕ} (i : Fin L) (t t2 : Fin L → Fin B → Fin V) : Prop :=
  ∀ j, j ≤ i → ∀ b, t j b = t2 j b

/-- Two rank-3 tensors of shape `[L, B, D]` agree at all positions `≤ i`. -/
abbrev AgreeLe {L B D : ℕ} (i : Fin L) (x y : Fin L → Fin B → Fin D → ℚ) : Prop :=
  ∀ j, j ≤ i → ∀ b e, x j b e = y j b e

/-- Modelled from the spec (§4.3 ResidualNormBlock): "given an input tensor `x`
and the output `y` of some sub-layer applied to `x`, produce
`normalize(x + dropout(y))`", stated at tensor level.  Used to compare the
source layers against the spec's residual-block formula. -/
def residualNormBlockSpec {A C D : ℕ} (rsqrt : ℚ → ℚ) (g c : Fin D → ℚ)
    (d : (Fin A → Fin C → Fin D → ℚ) → Fin A → Fin C → Fin D → ℚ)
    (x y : Fin A → Fin C → Fin D → ℚ) : Fin A → Fin C → Fin D → ℚ :=
  fun i b => layerNorm rsqrt g c (fun e => x i b e + d y i b e)

/-- The all-zero linear layer (used for concrete instantiations). -/
def zeroLin (m n : ℕ) : Lin m n := ⟨fun _ _ => 0, fun _ => 0⟩

/-- All-zero attention parameters. -/
def zeroAttnParams (D : ℕ) : AttnParams D := ⟨zeroLin D D, zeroLin D D, zeroLin D D, zeroLin D D⟩

/-- The constant-one function, a positive stand-in for `exp` (and for `rsqrt`) in
concrete instantiations. -/
def oneFun : ℚ → ℚ := fun _ => 1

/-- The dropout draw that zeroes every activation — a realization of
`nn.Dropout(p)` with `0 < p < 1` that occurs with positive probability. -/
def dropAll {A C D : ℕ} :
    (Fin A → Fin C → Fin D → ℚ) → Fin A → Fin C → Fin D → ℚ :=
  fun _ _ _ _ => 0

/-- The dropout draw on a probability tensor that zeroes every entry. -/
def dropAllProbs {B H L : ℕ} :
    (Fin B → Fin H → Fin L → Fin L → ℚ) → Fin B → Fin H → Fin L → Fin L → ℚ :=
  fun _ _ _ _ _ => 0

/-- Modelled from the spec (§4.3, §4.5): an encoder layer whose two residual
blocks each compute `normalize(x + dropout(y))` — the formula the claim states.
To be compared with the source `encLayerForward`. -/
def encLayerForwardSpec {H hd F B L : ℕ} (ex rsqrt : ℚ → ℚ) (sqrtHd : ℚ)
    (P : EncLayerParams H hd F)
    (d1 d2 : (Fin B → Fin L → Fin (H * hd) → ℚ) → Fin B → Fin L → Fin (H * hd) → ℚ)
    (x : Fin B → Fin L → Fin (H * hd) → ℚ)
    (mask : Option (Fin B → Fin B → Bool)) :
    Fin B → Fin L → Fin (H * hd) → ℚ :=
  let a := cmhaForward H hd ex sqrtHd P.attention id x x x mask
  let x1 := residualNormBlockSpec rsqrt P.norm1g P.norm1c d1 x a.1
  residualNormBlockSpec rsqrt P.norm2g P.norm2c d2 x1
    (fun b l => ffApply P.fc1 P.fc2 (x1 b l))

/-- The composite the source encoder layer actually computes, per residual step:
`dropout(normalize(y + x))` — dropout OUTSIDE the normalization. -/
def dropNormBlock {A C D : ℕ} (rsqrt : ℚ → ℚ) (g c : Fin D → ℚ)
    (d : (Fin A → Fin C → Fin D → ℚ) → Fin A → Fin C → Fin D → ℚ)
    (x y : Fin A → Fin C → Fin D → ℚ) : Fin A → Fin C → Fin D → ℚ :=
  d (fun i b => layerNorm rsqrt g c (fun e => y i b e + x i b e))

/-- Concrete encoder-layer parameters for the residual-shape counterexample:
everything zero except the second layer norm shift, which is the constant `1`. -/
def encLayerParamsW : EncLayerParams 1 1 1 :=
  ⟨fun _ => 0, fun _ => 0, fun _ => 0, fun _ => 1, zeroAttnParams 1, zeroLin 1 1, zeroLin 1 1⟩

/-- The all-zero rank-3 tensor of the given dimensions. -/
def zTensor (A C D : ℕ) : Fin A → Fin C → Fin D → ℚ := fun _ _ _ => 0

/-- Concrete all-zero decoder block parameters (single head, one-dimensional). -/
def decBlockParamsW : DecBlockParams 1 1 1 :=
  ⟨zeroAttnParams 1, fun _ => 0, fun _ => 0, zeroLin 1 1, zeroLin 1 1, fun _ => 0, fun _ => 0⟩

/-- Concrete decoder parameters: vocabulary 2, max length 2, one zero layer. -/
def decoderParamsW : DecoderParams 2 2 1 1 1 :=
  ⟨fun _ _ => 0, fun _ _ => 0, [decBlockParamsW], zeroLin 2 (1 * 1)⟩

/-- A concrete token sequence of shape `[2, 1]`: both tokens `0`. -/
def tokensW : Fin 2 → Fin 1 → Fin 2 := fun _ _ => 0

/-- A perturbation of `tokensW` at position `1` only (future of position `0`). -/
def tokens2W : Fin 2 → Fin 1 → Fin 2 := fun j _ => j

/-- The decoder logits rendered as nested lists (outer: sequence positions,
middle: batch, inner: vocabulary) — the shape-law rendering of the `[L, B, V]`
output tensor. -/
def decoderLogitsList {V maxLen H hd F : ℕ} (L B : ℕ) (ex rsqrt : ℚ → ℚ)
    (sqrtHd : ℚ) (P : DecoderParams V maxLen H hd F) (hL : L ≤ maxLen)
    (tokens : Fin L → Fin B → Fin V) (mask : Option (Fin L → Fin L → Bool)) :
    List (List (List ℚ)) :=
  (List.finRange L).map (fun i => (List.finRange B).map (fun b =>
    (List.finRange V).map (fun c =>
      (transformerDecoderForward ex rsqrt sqrtHd P hL tokens mask).1 i b c)))

/-- The classifier logits rendered as nested lists (outer: batch, inner: class)
— the shape-law rendering of the `[B, num_classes]` output tensor. -/
def classifierLogitsList {V maxLen H hd F C : ℕ} (B L : ℕ) (ex rsqrt : ℚ → ℚ)
    (sqrtHd : ℚ) (P : ClassifierParams V maxLen H hd F C) (hL : L ≤ maxLen)
    (x : Fin B → Fin L → Fin V) (mask : Option (Fin B → Fin B → Bool)) :
    List (List ℚ) :=
  (List.finRange B).map (fun b => (List.finRange C).map (fun c =>
    transformerClassifierForward ex rsqrt sqrtHd P hL x mask b c))

/-- A rank-3 nested list has shape `[a, b, c]`. -/
abbrev Shape3 (l : List (List (List ℚ))) (a b c : ℕ) : Prop :=
  l.length = a ∧ ∀ row ∈ l, row.length = b ∧ ∀ cell ∈ row, cell.length = c

/-- A rank-2 nested list has shape `[a, b]`. -/
abbrev Shape2 (l : List (List ℚ)) (a b : ℕ) : Prop :=
  l.length = a ∧ ∀ row ∈ l, row.length = b

/-- Concrete encoder parameters for the classifier shape witness. -/
def encoderParamsW : EncoderParams 2 2 1 1 1 :=
  ⟨fun _ _ => 0, fun _ _ => 0, [encLayerParamsW]⟩

/-- Concrete classifier parameters: 3 classes. -/
def classifierParamsW : ClassifierParams 2 2 1 1 1 3 :=
  ⟨encoderParamsW, zeroLin 3 (1 * 1)⟩

/-- A positive, non-constant stand-in for `exp` (positivity and injectivity at
`0` vs `1` are all that concrete counterexamples need). -/
def exQW : ℚ → ℚ := fun t => 1 + t * t

/-- The identity linear layer. -/
def idLin (n : ℕ) : Lin n n := ⟨fun o e2 => if o = e2 then 1 else 0, fun _ => 0⟩

/-- Attention parameters with identity `query`/`key` projections (so scores
depend on the input) and zero `value`/`out`. -/
def attnParamsQK : AttnParams 1 := ⟨idLin 1, idLin 1, zeroLin 1 1, zeroLin 1 1⟩

/-- Encoder-layer parameters A: zero attention weights; second norm has scale
`0` and shift `5`, so the layer output is the constant `5` regardless of the
attention pattern. -/
def encLayerParamsA : EncLayerParams 1 1 1 :=
  ⟨fun _ => 0, fun _ => 0, fun _ => 0, fun _ => 5, zeroAttnParams 1, zeroLin 1 1, zeroLin 1 1⟩

/-- Encoder-layer parameters B: identical to A except the attention
`query`/`key` projections are the identity, which changes the attention map. -/
def encLayerParamsB : EncLayerParams 1 1 1 :=
  ⟨fun _ => 0, fun _ => 0, fun _ => 0, fun _ => 5, attnParamsQK, zeroLin 1 1, zeroLin 1 1⟩

/-- Encoder stack A: word embedding sends token `1` to `1`, token `0` to `0`. -/
def encoderParamsA : EncoderParams 2 1 1 1 1 :=
  ⟨fun v _ => if v = 1 then 1 else 0, fun _ _ => 0, [encLayerParamsA]⟩

/-- Encoder stack B: same embeddings as A, layer parameters B. -/
def encoderParamsB : EncoderParams 2 1 1 1 1 :=
  ⟨fun v _ => if v = 1 then 1 else 0, fun _ _ => 0, [encLayerParamsB]⟩

/-- Concrete classifier input of shape `[B, L] = [2, 1]`: the token of batch
element `b` is `b` itself. -/
def xsW : Fin 2 → Fin 1 → Fin 2 := fun b _ => b

/-- The embedded input tensor that `Encoder.forward` feeds to its first layer
on `xsW` (word embedding of `xsW` plus the zero position embedding). -/
def encEmbedW : Fin 2 → Fin 1 → Fin (1 * 1) → ℚ := fun b l e =>
  encoderParamsA.word_embedding (xsW b l) e
    + encoderParamsA.position_embedding (Fin.castLE (le_refl 1) l) e

lemma create_mask_true_iff {L : ℕ} (i j : Fin L) :
    create_mask L i j = true ↔ (i : ℕ) < (j : ℕ) := by
  simp only [create_mask, triu, ones, decide_eq_true_eq]
  constructor
  · intro h
    by_contra hij
    simp only [not_lt] at hij
    have : ¬ ((1 : ℤ) ≤ (j : ℕ) - (i : ℕ)) := by omega
    simp [this] at h
  · intro h
    have : ((1 : ℤ) ≤ (j : ℕ) - (i : ℕ)) := by omega
    simp [this]

lemma create_mask_false_iff {L : ℕ} (i j : Fin L) :
    create_mask L i j = false ↔ (j : ℕ) ≤ (i : ℕ) := by
  rw [← Bool.not_eq_true, create_mask_true_iff]
  omega

lemma cmhaInitOk_true_iff (embed_dim num_heads : ℕ) (h : 0 < num_heads) :
    cmhaInitOk embed_dim num_heads = true ↔ embed_dim % num_heads = 0 := by
  simp only [cmhaInitOk, Bool.and_eq_true, bne_iff_ne, ne_eq, beq_iff_eq]
  constructor
  · rintro ⟨-, heq⟩
    have h1 : num_heads * (embed_dim / num_heads) + embed_dim % num_heads = embed_dim :=
      Nat.div_add_mod embed_dim num_heads
    rw [Nat.mul_comm] at h1
    rw [heq] at h1
    omega
  · intro hmod
    exact ⟨by omega, Nat.div_mul_cancel (Nat.dvd_of_mod_eq_zero hmod)⟩

/-- C4: for every sequence length `n`, `create_mask n` is the boolean matrix with
`mask[i][j] = true` iff `j > i`; in particular every diagonal entry is `false`,
so no row is fully masked (position `i` may attend to itself). -/
theorem create_mask_strict_upper (n : ℕ) :
    (∀ i j : Fin n, create_mask n i j = true ↔ (i : ℕ) < (j : ℕ)) ∧
    (∀ i : Fin n, create_mask n i i = false) := by
  refine ⟨fun i j => create_mask_true_iff i j, fun i => ?_⟩
  rw [create_mask_false_iff]

/-- C5: with `0 < num_heads`, construction of `CustomMultiheadAttention` fails
exactly when `embed_dim % num_heads ≠ 0` (the construction-time assert), and
succeeds exactly when the division is exact. -/
theorem cmha_construction_iff (embed_dim num_heads : ℕ) (h : 0 < num_heads) :
    (cmhaInitOk embed_dim num_heads = false ↔ embed_dim % num_heads ≠ 0) ∧
    (cmhaInitOk embed_dim num_heads = true ↔ embed_dim % num_heads = 0) := by
  have hiff := cmhaInitOk_true_iff embed_dim num_heads h
  constructor
  · rw [← Bool.not_eq_true, hiff]
  · exact hiff

theorem cmha_construction_iff_witness :
    0 < 4 ∧ ((cmhaInitOk 6 4 = false ↔ 6 % 4 ≠ 0) ∧ (cmhaInitOk 6 4 = true ↔ 6 % 4 = 0)) :=
  ⟨by decide, cmha_construction_iff 6 4 (by decide)⟩

/-- C6 counterexample: with `vocab_size = 0` (non-positive) and `dropout = 1`
(outside `[0,1)`), the claim demands a construction-time `ConfigurationError`,
but `TransformerDecoder.__init__` performs no such validation and construction
succeeds. -/
theorem decoder_init_no_positivity_check : transformerDecoderInitOk 0 4 4 2 8 1 1 = true := by
  decide

/-- C6 amended: construction of `TransformerDecoder` succeeds exactly when the
dropout rate lies in the library-accepted closed interval `[0,1]` and, whenever
`num_layers > 0`, `embed_dim` is divisible by `num_heads`; no positivity of
`vocab_size`, `max_seq_len`, `embed_dim`, `ff_hidden_dim` or `num_layers` is
checked. -/
theorem decoder_init_characterization (v m e h f l : ℕ) (p : ℚ) (hh : 0 < h) :
    transformerDecoderInitOk v m e h f l p = true ↔
      (0 ≤ p ∧ p ≤ 1 ∧ (l = 0 ∨ e % h = 0)) := by
  simp only [transformerDecoderInitOk, Bool.and_eq_true, Bool.or_eq_true,
    beq_iff_eq, decide_eq_true_eq, cmhaInitOk_true_iff e h hh, and_assoc]

theorem decoder_init_characterization_witness :
    0 < 2 ∧ (transformerDecoderInitOk 0 4 4 2 8 0 1 = true ↔
      ((0 : ℚ) ≤ 1 ∧ (1 : ℚ) ≤ 1 ∧ ((0 : ℕ) = 0 ∨ (4 : ℕ) % 2 = 0))) :=
  ⟨by decide, decoder_init_characterization 0 4 4 2 8 0 1 (by decide)⟩

/-- C7 counterexample: with stack-level dropout rate `1/2`, the attention module
constructed by `TransformerDecoderBlock` (and by `EncoderLayer`) has
`attention_dropout` rate `0`, not `1/2`: the attention-internal dropout does NOT
operate at the configured stack-level rate. -/
theorem attn_dropout_rate_counterexample :
    (mkDecBlockCfg 4 2 8 (1/2)).self_attn.attention_dropout_rate = 0 ∧
    (mkEncLayerCfg 4 2 4 (1/2)).attention.attention_dropout_rate = 0 ∧
    (mkDecBlockCfg 4 2 8 (1/2)).self_attn.attention_dropout_rate ≠ (1 : ℚ) / 2 := by
  refine ⟨rfl, rfl, ?_⟩
  simp [mkDecBlockCfg, mkCMHACfg]

/-- C7 amended: the dropout rate supplied at stack construction is used for the
embedding dropout and for the residual-path dropout of every decoder block and
encoder layer, but the attention-internal dropout (applied to the probabilities
after softmax) is hard-wired to rate `0` in both layer types. -/
theorem dropout_rate_wiring (v m e h f l : ℕ) (p : ℚ) :
    (∀ c ∈ (mkDecoderCfg v m e h f l p).layers,
      c.dropout_rate = p ∧ c.self_attn.attention_dropout_rate = 0) ∧
    (mkDecoderCfg v m e h f l p).dropout_rate = p ∧
    (mkEncLayerCfg e h f p).dropout_rate = p ∧
    (mkEncLayerCfg e h f p).attention.attention_dropout_rate = 0 := by
  refine ⟨?_, rfl, rfl, rfl⟩
  intro c hc
  rw [mkDecoderCfg] at hc
  simp only [List.mem_replicate] at hc
  rw [hc.2]
  exact ⟨rfl, rfl⟩

lemma maskedSoftmax_sum {n : ℕ} (ex : ℚ → ℚ) (m : Fin n → Bool) (s : Fin n → ℚ)
    (hex : IsPos ex) (hm : ∃ j, m j = false) :
    ∑ j, maskedSoftmax ex m s j = 1 := by
  classical
  have hpos : 0 < ∑ j2 in Finset.univ.filter (fun j2 => m j2 = false), ex (s j2) := by
    apply Finset.sum_pos
    · intro j _
      exact hex (s j)
    · obtain ⟨j, hj⟩ := hm
      exact ⟨j, Finset.mem_filter.mpr ⟨Finset.mem_univ j, hj⟩⟩
  have h1 : ∑ j, maskedSoftmax ex m s j
      = ∑ j in Finset.univ.filter (fun j2 => m j2 = false),
          ex (s j) / (∑ j2 in Finset.univ.filter (fun j2 => m j2 = false), ex (s j2)) := by
    rw [Finset.sum_filter]
    apply Finset.sum_congr rfl
    intro j _
    by_cases hj : m j = true
    · simp [maskedSoftmax, hj]
    · simp only [Bool.not_eq_true] at hj
      simp [maskedSoftmax, hj]
  rw [h1, ← Finset.sum_div, div_self (ne_of_gt hpos)]

/-- C3: for every forward call of `CustomMultiheadAttention` with dropout
disabled (`dAttn = id`), positivity of `exp`, at least one head, and a mask
(optional) that never fully blocks a row, every row of the returned attention
map — the mean over heads of the softmax probabilities — sums to `1`. -/
theorem attn_map_rows_sum_one (H hd : ℕ) {L B : ℕ} (ex : ℚ → ℚ) (sqrtHd : ℚ)
    (p : AttnParams (H * hd)) (q k v : Fin L → Fin B → Fin (H * hd) → ℚ)
    (attn_mask : Option (Fin L → Fin L → Bool))
    (hex : IsPos ex) (hH : 0 < H) (hm : NoFullRow attn_mask) :
    RowsSumOne (cmhaForward H hd ex sqrtHd p id q k v attn_mask).2 := by
  intro b i
  simp only [cmhaForward, headMean, id_eq]
  rw [← Finset.sum_div, Finset.sum_comm]
  have hrow : ∀ h : Fin H,
      ∑ j, rawAttnProbs H hd ex sqrtHd p q k attn_mask b h i j = 1 := by
    intro h
    simp only [rawAttnProbs]
    exact maskedSoftmax_sum ex _ _ hex (hm i)
  rw [Finset.sum_congr rfl (fun h _ => hrow h)]
  rw [Finset.sum_const, Finset.card_univ, Fintype.card_fin, nsmul_eq_mul, mul_one]
  exact div_self (by exact_mod_cast hH.ne')

theorem attn_map_rows_sum_one_witness :
    IsPos oneFun ∧ 0 < 1 ∧ NoFullRow (some (create_mask 2)) ∧
    RowsSumOne (cmhaForward 1 1 oneFun 1 (zeroAttnParams 1) id
      (zTensor 2 1 (1 * 1)) (zTensor 2 1 (1 * 1)) (zTensor 2 1 (1 * 1))
      (some (create_mask 2))).2 :=
  ⟨fun _ => one_pos, by decide, by decide,
    attn_map_rows_sum_one 1 1 oneFun 1 (zeroAttnParams 1)
      (zTensor 2 1 (1 * 1)) (zTensor 2 1 (1 * 1)) (zTensor 2 1 (1 * 1))
      (some (create_mask 2)) (fun _ => one_pos) (by decide) (by decide)⟩

/-- C10: for every dropout draw `dAttn`, the attention map returned by
`CustomMultiheadAttention.forward` is the mean over heads of exactly the
post-dropout probability tensor, and the output is computed from that very same
tensor; moreover (last two conjuncts) under the active draw that zeroes every
probability the map is `0` while with dropout disabled it is `1` at the same
index — so the artifact reflects the post-dropout weights, not the raw softmax. -/
theorem attn_map_is_post_dropout_probs (H hd : ℕ) {L B : ℕ} (ex : ℚ → ℚ)
    (sqrtHd : ℚ) (p : AttnParams (H * hd))
    (dAttn : (Fin B → Fin H → Fin L → Fin L → ℚ) → Fin B → Fin H → Fin L → Fin L → ℚ)
    (q k v : Fin L → Fin B → Fin (H * hd) → ℚ)
    (attn_mask : Option (Fin L → Fin L → Bool)) :
    (cmhaForward H hd ex sqrtHd p dAttn q k v attn_mask).2
      = headMean (dAttn (rawAttnProbs H hd ex sqrtHd p q k attn_mask)) ∧
    (cmhaForward H hd ex sqrtHd p dAttn q k v attn_mask).1
      = attnOutputFrom H hd p v (dAttn (rawAttnProbs H hd ex sqrtHd p q k attn_mask)) ∧
    (cmhaForward 1 1 oneFun 1 (zeroAttnParams 1) dropAllProbs
      (zTensor 1 1 (1 * 1)) (zTensor 1 1 (1 * 1)) (zTensor 1 1 (1 * 1)) none).2 0 0 0 = 0 ∧
    (cmhaForward 1 1 oneFun 1 (zeroAttnParams 1) id
      (zTensor 1 1 (1 * 1)) (zTensor 1 1 (1 * 1)) (zTensor 1 1 (1 * 1)) none).2 0 0 0 = 1 := by
  refine ⟨rfl, rfl, ?_, ?_⟩
  · simp [cmhaForward, headMean, dropAllProbs]
  · simp [cmhaForward, headMean, rawAttnProbs, maskedSoftmax, attnScores, oneFun,
      Finset.filter_True, Fin.sum_univ_one]

/-- C2 counterexample: under the (positive-probability) dropout draw that zeroes
everything, the source `EncoderLayer.forward` yields `0` at every coordinate
(dropout is applied OUTSIDE the layer norm), while the claimed
`normalize(x + dropout(y))` composition yields the norm-2 shift `1`: the encoder
layer's residual blocks do not compute `normalize(x + dropout(y))`. -/
theorem enc_residual_shape_counterexample :
    encLayerForward oneFun oneFun 1 encLayerParamsW dropAll dropAll
      (zTensor 1 1 (1 * 1)) none 0 0 0 = 0 ∧
    encLayerForwardSpec oneFun oneFun 1 encLayerParamsW dropAll dropAll
      (zTensor 1 1 (1 * 1)) none 0 0 0 = 1 := by
  constructor
  · simp [encLayerForward, dropAll]
  · simp [encLayerForwardSpec, residualNormBlockSpec, layerNorm, encLayerParamsW]

/-- C2 amended: the two residual blocks of every DECODER layer compute
`normalize(x + dropout(y))` exactly as the claim states; every ENCODER layer
instead computes `dropout(normalize(y + x))` in both of its residual blocks —
dropout applied after the normalization of the plain sum. -/
theorem residual_block_structure {H hd F L B : ℕ} (ex rsqrt : ℚ → ℚ)
    (sqrtHd : ℚ) (P : DecBlockParams H hd F) (Q : EncLayerParams H hd F)
    (d1 d2 : (Fin L → Fin B → Fin (H * hd) → ℚ) → Fin L → Fin B → Fin (H * hd) → ℚ)
    (e1 e2 : (Fin B → Fin L → Fin (H * hd) → ℚ) → Fin B → Fin L → Fin (H * hd) → ℚ)
    (x : Fin L → Fin B → Fin (H * hd) → ℚ)
    (y : Fin B → Fin L → Fin (H * hd) → ℚ)
    (mask : Option (Fin L → Fin L → Bool))
    (maskE : Option (Fin B → Fin B → Bool)) :
    (decBlockForward ex rsqrt sqrtHd P d1 d2 x mask).1
      = residualNormBlockSpec rsqrt P.ln2g P.ln2c d2
          (residualNormBlockSpec rsqrt P.ln1g P.ln1c d1 x
            (cmhaForward H hd ex sqrtHd P.self_attn id x x x mask).1)
          (fun i b => ffApply P.ffn1 P.ffn2
            (residualNormBlockSpec rsqrt P.ln1g P.ln1c d1 x
              (cmhaForward H hd ex sqrtHd P.self_attn id x x x mask).1 i b)) ∧
    encLayerForward ex rsqrt sqrtHd Q e1 e2 y maskE
      = dropNormBlock rsqrt Q.norm2g Q.norm2c e2
          (dropNormBlock rsqrt Q.norm1g Q.norm1c e1 y
            (cmhaForward H hd ex sqrtHd Q.attention id y y y maskE).1)
          (fun b l => ffApply Q.fc1 Q.fc2
            (dropNormBlock rsqrt Q.norm1g Q.norm1c e1 y
              (cmhaForward H hd ex sqrtHd Q.attention id y y y maskE).1 b l)) := by
  exact ⟨rfl, rfl⟩

lemma linMap_pt_eq {E D L B : ℕ} (l : Lin E D) (x y : Fin L → Fin B → Fin D → ℚ)
    (j : Fin L) (b : Fin B) (hxy : x j b = y j b) :
    linMap l x j b = linMap l y j b := by
  simp only [linMap, hxy]

lemma attnScores_causal {H hd L B : ℕ} (sqrtHd : ℚ) (p : AttnParams (H * hd))
    (x y : Fin L → Fin B → Fin (H * hd) → ℚ) (i : Fin L) (hxy : AgreeLe i x y)
    (b : Fin B) (h : Fin H) (j j3 : Fin L) (hj : j ≤ i) (hj3 : j3 ≤ i) :
    attnScores sqrtHd (headSlice H hd (linMap p.query x))
        (headSlice H hd (linMap p.key x)) b h j j3
      = attnScores sqrtHd (headSlice H hd (linMap p.query y))
        (headSlice H hd (linMap p.key y)) b h j j3 := by
  have hxj : x j b = y j b := funext (fun e => hxy j hj b e)
  have hxj3 : x j3 b = y j3 b := funext (fun e => hxy j3 hj3 b e)
  simp only [attnScores, headSlice]
  congr 1
  apply Finset.sum_congr rfl
  intro k _
  rw [linMap_pt_eq p.query x y j b hxj, linMap_pt_eq p.key x y j3 b hxj3]

lemma rawAttnProbs_causal {H hd L B : ℕ} (ex : ℚ → ℚ) (sqrtHd : ℚ)
    (p : AttnParams (H * hd)) (x y : Fin L → Fin B → Fin (H * hd) → ℚ)
    (i : Fin L) (hxy : AgreeLe i x y) (b : Fin B) (h : Fin H)
    (j j2 : Fin L) (hj : j ≤ i) :
    rawAttnProbs H hd ex sqrtHd p x x (some (create_mask L)) b h j j2
      = rawAttnProbs H hd ex sqrtHd p y y (some (create_mask L)) b h j j2 := by
  have hsc : ∀ j3 : Fin L, (j3 : ℕ) ≤ (j : ℕ) →
      attnScores sqrtHd (headSlice H hd (linMap p.query x))
          (headSlice H hd (linMap p.key x)) b h j j3
        = attnScores sqrtHd (headSlice H hd (linMap p.query y))
          (headSlice H hd (linMap p.key y)) b h j j3 := by
    intro j3 hj3
    exact attnScores_causal sqrtHd p x y i hxy b h j j3 hj
      (le_trans (Fin.le_def.mpr hj3) hj)
  simp only [rawAttnProbs, maskedSoftmax, effMask, Option.getD_some]
  by_cases hmk : create_mask L j j2 = true
  · simp [hmk]
  · have hmkf : create_mask L j j2 = false := by
      rw [← Bool.not_eq_true]
      exact hmk
    have hj2 : (j2 : ℕ) ≤ (j : ℕ) := (create_mask_false_iff j j2).mp hmkf
    rw [if_neg hmk, if_neg hmk, hsc j2 hj2]
    congr 1
    apply Finset.sum_congr rfl
    intro j3 hj3
    simp only [Finset.mem_filter] at hj3
    rw [hsc j3 ((create_mask_false_iff j j3).mp hj3.2)]

lemma cmha_headOut_causal {H hd L B : ℕ} (ex : ℚ → ℚ) (sqrtHd : ℚ)
    (p : AttnParams (H * hd)) (x y : Fin L → Fin B → Fin (H * hd) → ℚ)
    (i : Fin L) (hxy : AgreeLe i x y) (b : Fin B) (h : Fin H) (kk : Fin hd)
    (j : Fin L) (hj : j ≤ i) :
    (∑ j2, rawAttnProbs H hd ex sqrtHd p x x (some (create_mask L)) b h j j2
        * headSlice H hd (linMap p.value x) b h j2 kk)
      = ∑ j2, rawAttnProbs H hd ex sqrtHd p y y (some (create_mask L)) b h j j2
        * headSlice H hd (linMap p.value y) b h j2 kk := by
  apply Finset.sum_congr rfl
  intro j2 _
  by_cases hmk : create_mask L j j2 = true
  · have hz : ∀ z : Fin L → Fin B → Fin (H * hd) → ℚ,
        rawAttnProbs H hd ex sqrtHd p z z (some (create_mask L)) b h j j2 = 0 := by
      intro z
      simp [rawAttnProbs, maskedSoftmax, hmk]
    rw [hz x, hz y, zero_mul, zero_mul]
  · have hmkf : create_mask L j j2 = false := by
      rw [← Bool.not_eq_true]
      exact hmk
    have hj2 : j2 ≤ i :=
      le_trans (Fin.le_def.mpr ((create_mask_false_iff j j2).mp hmkf)) hj
    have hv : x j2 b = y j2 b := funext (fun e => hxy j2 hj2 b e)
    rw [rawAttnProbs_causal ex sqrtHd p x y i hxy b h j j2 hj]
    simp only [headSlice]
    rw [linMap_pt_eq p.value x y j2 b hv]

lemma cmha_output_causal {H hd L B : ℕ} (ex : ℚ → ℚ) (sqrtHd : ℚ)
    (p : AttnParams (H * hd)) (x y : Fin L → Fin B → Fin (H * hd) → ℚ)
    (i : Fin L) (hxy : AgreeLe i x y) (j : Fin L) (hj : j ≤ i) (b : Fin B)
    (e : Fin (H * hd)) :
    (cmhaForward H hd ex sqrtHd p id x x x (some (create_mask L))).1 j b e
      = (cmhaForward H hd ex sqrtHd p id y y y (some (create_mask L))).1 j b e := by
  simp only [cmhaForward, attnOutputFrom, linMap, Lin.app, id_eq]
  congr 1
  apply Finset.sum_congr rfl
  intro e2 _
  congr 1
  exact cmha_headOut_causal ex sqrtHd p x y i hxy b (ehead e2) (ehd e2) j hj

lemma decBlock_causal {H hd F L B : ℕ} (ex rsqrt : ℚ → ℚ) (sqrtHd : ℚ)
    (P : DecBlockParams H hd F) (x y : Fin L → Fin B → Fin (H * hd) → ℚ)
    (i : Fin L) (hxy : AgreeLe i x y) :
    AgreeLe i (decBlockForward ex rsqrt sqrtHd P id id x (some (create_mask L))).1
      (decBlockForward ex rsqrt sqrtHd P id id y (some (create_mask L))).1 := by
  intro j hj b e
  simp only [decBlockForward, id_eq]
  have hx1 : (fun e2 => x j b e2
        + (cmhaForward H hd ex sqrtHd P.self_attn id x x x (some (create_mask L))).1 j b e2)
      = (fun e2 => y j b e2
        + (cmhaForward H hd ex sqrtHd P.self_attn id y y y (some (create_mask L))).1 j b e2) :=
    funext fun e2 => by
      rw [hxy j hj b e2, cmha_output_causal ex sqrtHd P.self_attn x y i hxy j hj b e2]
  rw [hx1]

lemma runLayers_causal {H hd F L B : ℕ} (ex rsqrt : ℚ → ℚ) (sqrtHd : ℚ)
    (Ps : List (DecBlockParams H hd F)) (i : Fin L) :
    ∀ x y : Fin L → Fin B → Fin (H * hd) → ℚ, AgreeLe i x y →
      AgreeLe i (runLayers ex rsqrt sqrtHd (some (create_mask L)) Ps x).1
        (runLayers ex rsqrt sqrtHd (some (create_mask L)) Ps y).1 := by
  induction Ps with
  | nil => intro x y h; exact h
  | cons P Ps ih =>
    intro x y h
    simp only [runLayers]
    exact ih _ _ (decBlock_causal ex rsqrt sqrtHd P x y i h)

/-- C1: for the decoder stack run with the causal mask from `create_mask` and
dropout disabled, if two token tensors of shape `[L, B]` agree at every position
`≤ i` (i.e. one is a perturbation of the other at positions strictly greater
than `i`), then the logits they produce agree at every position `≤ i`: the
output at position `i` does not depend on future tokens. -/
theorem decoder_causality {V maxLen H hd F L B : ℕ} (ex rsqrt : ℚ → ℚ)
    (sqrtHd : ℚ) (P : DecoderParams V maxLen H hd F) (hL : L ≤ maxLen)
    (t t2 : Fin L → Fin B → Fin V) (i : Fin L)
    (hagree : TokensAgreeLe i t t2) :
    AgreeLe i
      (transformerDecoderForward ex rsqrt sqrtHd P hL t (some (create_mask L))).1
      (transformerDecoderForward ex rsqrt sqrtHd P hL t2 (some (create_mask L))).1 := by
  intro j hj b v
  simp only [transformerDecoderForward, Lin.app]
  have hx0 : AgreeLe i
      (fun i2 b2 e => P.token_embedding (t i2 b2) e
        + P.position_embedding (Fin.castLE hL i2) e)
      (fun i2 b2 e => P.token_embedding (t2 i2 b2) e
        + P.position_embedding (Fin.castLE hL i2) e) := by
    intro j2 hj2 b2 e
    simp only
    rw [hagree j2 hj2 b2]
  have hrun := runLayers_causal ex rsqrt sqrtHd P.layers i _ _ hx0
  congr 1
  apply Finset.sum_congr rfl
  intro e _
  rw [hrun j hj b e]

theorem decoder_causality_witness :
    TokensAgreeLe (0 : Fin 2) tokensW tokens2W ∧
    AgreeLe (0 : Fin 2)
      (transformerDecoderForward oneFun oneFun 1 decoderParamsW (le_refl 2)
        tokensW (some (create_mask 2))).1
      (transformerDecoderForward oneFun oneFun 1 decoderParamsW (le_refl 2)
        tokens2W (some (create_mask 2))).1 :=
  ⟨by decide, decoder_causality oneFun oneFun 1 decoderParamsW (le_refl 2)
    tokensW tokens2W 0 (by decide)⟩

/-- C8 (shape law): for every token-id input of shape `[L, B]` with
`L ≤ max_seq_len`, the decoder stack returns logits of shape `[L, B, vocab_size]`;
for every token-id input of shape `[B2, L2]` (with the position table large
enough), the encoder classifier returns logits of shape `[B2, num_classes]`. -/
theorem forward_shape_law {V maxLen H hd F L B : ℕ} (ex rsqrt : ℚ → ℚ)
    (sqrtHd : ℚ) (P : DecoderParams V maxLen H hd F) (hL : L ≤ maxLen)
    (tokens : Fin L → Fin B → Fin V) (mask : Option (Fin L → Fin L → Bool))
    {V2 maxLen2 H2 hd2 F2 C B2 L2 : ℕ} (ex2 rsqrt2 : ℚ → ℚ) (sqrtHd2 : ℚ)
    (Q : ClassifierParams V2 maxLen2 H2 hd2 F2 C) (hL2 : L2 ≤ maxLen2)
    (xs : Fin B2 → Fin L2 → Fin V2) (maskE : Option (Fin B2 → Fin B2 → Bool)) :
    Shape3 (decoderLogitsList L B ex rsqrt sqrtHd P hL tokens mask) L B V ∧
    Shape2 (classifierLogitsList B2 L2 ex2 rsqrt2 sqrtHd2 Q hL2 xs maskE) B2 C := by
  refine ⟨⟨by simp [decoderLogitsList], ?_⟩, ⟨by simp [classifierLogitsList], ?_⟩⟩
  · intro row hrow
    simp only [decoderLogitsList, List.mem_map] at hrow
    obtain ⟨i, -, rfl⟩ := hrow
    refine ⟨by simp, ?_⟩
    intro cell hcell
    simp only [List.mem_map] at hcell
    obtain ⟨b, -, rfl⟩ := hcell
    simp
  · intro row hrow
    simp only [classifierLogitsList, List.mem_map] at hrow
    obtain ⟨b, -, rfl⟩ := hrow
    simp

theorem forward_shape_law_witness :
    (2 ≤ 2) ∧
    (Shape3 (decoderLogitsList 2 1 oneFun oneFun 1 decoderParamsW (le_refl 2)
      tokensW (some (create_mask 2))) 2 1 2 ∧
     Shape2 (classifierLogitsList 2 1 oneFun oneFun 1 classifierParamsW one_le_two
      xsW none) 2 3) :=
  ⟨le_refl 2, forward_shape_law oneFun oneFun 1 decoderParamsW (le_refl 2)
    tokensW (some (create_mask 2)) oneFun oneFun 1 classifierParamsW one_le_two
    xsW none⟩

lemma runLayers_fst_eq_seq {H hd F L B : ℕ} (ex rsqrt : ℚ → ℚ) (sqrtHd : ℚ)
    (mask : Option (Fin L → Fin L → Bool)) (Ps : List (DecBlockParams H hd F)) :
    ∀ x : Fin L → Fin B → Fin (H * hd) → ℚ,
      (runLayers ex rsqrt sqrtHd mask Ps x).1 = runLayersSeq ex rsqrt sqrtHd mask Ps x := by
  induction Ps with
  | nil => intro x; rfl
  | cons P Ps ih => intro x; exact ih _

lemma runLayers_snd_length {H hd F L B : ℕ} (ex rsqrt : ℚ → ℚ) (sqrtHd : ℚ)
    (mask : Option (Fin L → Fin L → Bool)) (Ps : List (DecBlockParams H hd F)) :
    ∀ x : Fin L → Fin B → Fin (H * hd) → ℚ,
      (runLayers ex rsqrt sqrtHd mask Ps x).2.length = Ps.length := by
  induction Ps with
  | nil => intro x; rfl
  | cons P Ps ih =>
    intro x
    simp only [runLayers, List.length_cons]
    rw [ih]

/-- C9 amended (decoder half): the decoder stack's forward output retains one
attention map per layer (each of type `[batch, seq_len, seq_len]`, averaged over
heads inside `CustomMultiheadAttention`), and the logits are computed without
consuming any of the maps (they equal the maps-free recursion `runLayersSeq`
followed by the output projection). -/
theorem decoder_retains_attn_maps {V maxLen H hd F L B : ℕ} (ex rsqrt : ℚ → ℚ)
    (sqrtHd : ℚ) (P : DecoderParams V maxLen H hd F) (hL : L ≤ maxLen)
    (tokens : Fin L → Fin B → Fin V) (mask : Option (Fin L → Fin L → Bool)) :
    (transformerDecoderForward ex rsqrt sqrtHd P hL tokens mask).2.length
      = P.layers.length ∧
    (transformerDecoderForward ex rsqrt sqrtHd P hL tokens mask).1
      = fun i b => P.fc_out.app (runLayersSeq ex rsqrt sqrtHd mask P.layers
          (fun i2 b2 e => P.token_embedding (tokens i2 b2) e
            + P.position_embedding (Fin.castLE hL i2) e) i b) := by
  constructor
  · exact runLayers_snd_length ex rsqrt sqrtHd mask P.layers _
  · simp only [transformerDecoderForward]
    rw [runLayers_fst_eq_seq]

theorem decoder_retains_attn_maps_witness :
    (2 ≤ 2) ∧
    ((transformerDecoderForward oneFun oneFun 1 decoderParamsW (le_refl 2)
        tokensW (some (create_mask 2))).2.length = decoderParamsW.layers.length ∧
      (transformerDecoderForward oneFun oneFun 1 decoderParamsW (le_refl 2)
        tokensW (some (create_mask 2))).1
        = fun i b => decoderParamsW.fc_out.app
            (runLayersSeq oneFun oneFun 1 (some (create_mask 2)) decoderParamsW.layers
              (fun i2 b2 e => decoderParamsW.token_embedding (tokensW i2 b2) e
                + decoderParamsW.position_embedding (Fin.castLE (le_refl 2) i2) e) i b)) :=
  ⟨le_refl 2, decoder_retains_attn_maps oneFun oneFun 1 decoderParamsW (le_refl 2)
    tokensW (some (create_mask 2))⟩

/-- C9 counterexample (encoder half): two encoder stacks that compute DIFFERENT
layer attention maps on the same input produce IDENTICAL forward outputs, so the
encoder stack's forward output does not include (nor determine) the per-layer
maps — `EncoderLayer.forward` computes `atten_map` and discards it (line 272
binds it; line 276 returns only `out`). -/
theorem encoder_discards_attn_maps_counterexample :
    encoderForward exQW oneFun 1 encoderParamsA (le_refl 1) xsW none
      = encoderForward exQW oneFun 1 encoderParamsB (le_refl 1) xsW none ∧
    encLayerAttnMap exQW 1 encLayerParamsA encEmbedW none 0 1 1 = 1 / 2 ∧
    encLayerAttnMap exQW 1 encLayerParamsB encEmbedW none 0 1 1 = 2 / 3 ∧
    ((1 : ℚ) / 2) ≠ 2 / 3 := by
  refine ⟨?_, ?_, ?_, by norm_num⟩
  · funext b l e
    simp [encoderForward, encRunLayers, encLayerForward, layerNorm,
      encoderParamsA, encoderParamsB, encLayerParamsA, encLayerParamsB]
  · simp [encLayerAttnMap, cmhaForward, headMean, rawAttnProbs, maskedSoftmax,
      attnScores, headSlice, linMap, Lin.app, encLayerParamsA, zeroAttnParams,
      zeroLin, encEmbedW, encoderParamsA, xsW, exQW, Finset.filter_True,
      Fin.sum_univ_one, Fin.sum_univ_two]
  · simp +decide [encLayerAttnMap, cmhaForward, headMean, rawAttnProbs, maskedSoftmax,
      attnScores, headSlice, linMap, Lin.app, encLayerParamsB, attnParamsQK,
      idLin, zeroLin, encEmbedW, encoderParamsA, xsW, exQW, Finset.filter_True,
      Fin.sum_univ_one, Fin.sum_univ_two]
    norm_num
